import Mathlib

/-!
Verification of the inverse Sierpinski carpet renderer (src/script.js).

The carpet generation, wheel zoom, spin-angle advance and vertex rounding are
embedded over ℚ (the JavaScript arithmetic is exact on the properties checked
here, and ℚ keeps every definition executable).  The matrix pipeline
(drawCube, handleMouseMove) is embedded over ℝ with 4x4 matrices, where the
gl-matrix operations multiply, scale, translate, rotateX/Y/Z are modelled by
right multiplication with the corresponding elementary matrix, matching the
column-vector convention used by the shader (gl_Position = P * V * M * pos).
-/

/-- One cube emitted by drawCarpet: the arguments the source passes to
createCubeVertices (center coordinates and edge length). -/
structure CubePlacement where
  centerX : ℚ
  centerY : ℚ
  centerZ : ℚ
  size : ℚ
deriving DecidableEq, Repr

/-- Embedding of drawCarpet (script.js lines 404-430).  The source draws the
center cube of each 3x3 split and recurses on the eight remaining cells while
iterations > 1; the embedding returns the list of cube placements in the
order the source submits them (i outer loop, j inner loop). -/
def drawCarpet (x y size : ℚ) (iterations : ℕ) : List CubePlacement :=
  let newSize := size / 3
  (List.range 3).flatMap fun i =>
    (List.range 3).flatMap fun j =>
      let newX := x + (i : ℚ) * newSize
      let newY := y + (j : ℚ) * newSize
      if i = 1 ∧ j = 1 then
        [{ centerX := newX + newSize / 2, centerY := newY + newSize / 2,
           centerZ := newSize / 2, size := newSize }]
      else
        -- the source guard iterations > 1; matching on the numeral keeps the
        -- recursion structural (iterations = k + 2 exactly when 1 < iterations)
        match iterations with
        | k + 2 => drawCarpet newX newY newSize (k + 1)
        | _ => []

/-- The loop body of drawCarpet for the cell (i, j) of the 3x3 grid, written
out so that lemmas can speak about a single cell.  Definitionally equal to the
corresponding inner expression of drawCarpet. -/
def cellBody (x y size : ℚ) (iterations : ℕ) (i j : ℕ) : List CubePlacement :=
  let newSize := size / 3
  let newX := x + (i : ℚ) * newSize
  let newY := y + (j : ℚ) * newSize
  if i = 1 ∧ j = 1 then
    [{ centerX := newX + newSize / 2, centerY := newY + newSize / 2,
       centerZ := newSize / 2, size := newSize }]
  else
    match iterations with
    | k + 2 => drawCarpet newX newY newSize (k + 1)
    | _ => []

/-- Number of cubes drawCarpet emits, as a function of the iteration count
only (each recursion level multiplies the non-center work by 8 and adds the
center cube). -/
def carpetCount : ℕ → ℕ
  | k + 2 => 1 + 8 * carpetCount (k + 1)
  | _ => 1

/-- Numeric fields of the source state object (script.js lines 125-139) that
the render loop, wheel and slider handlers read and write.  The matrix field
canvasRotationMatrix lives in the real-valued scene model below. -/
structure AppState where
  canvasSize : ℚ
  xRotationSpeed : ℚ
  yRotationSpeed : ℚ
  zRotationSpeed : ℚ
  xRotationAngle : ℚ
  yRotationAngle : ℚ
  zRotationAngle : ℚ
  canvasScale : ℚ
deriving DecidableEq, Repr

/-- Initial state values from script.js lines 125-139. -/
def initAppState : AppState :=
  { canvasSize := 2
    xRotationSpeed := 0, yRotationSpeed := 0, zRotationSpeed := 0
    xRotationAngle := 0, yRotationAngle := 0, zRotationAngle := 0
    canvasScale := 1 }

/-- The spin-angle update performed by animate (script.js lines 437-440). -/
def advanceSpin (st : AppState) : AppState :=
  { st with
    xRotationAngle := st.xRotationAngle + st.xRotationSpeed / 200
    yRotationAngle := st.yRotationAngle + st.yRotationSpeed / 200
    zRotationAngle := st.zRotationAngle + st.zRotationSpeed / 200 }

/-- Embedding of onCanvasWheel (script.js lines 513-530): step the scale by
the zoom sensitivity 0.1 according to the sign of deltaY, then clamp into
[0.1, 10.0] unconditionally. -/
def onCanvasWheel (st : AppState) (deltaY : ℚ) : AppState :=
  let zoomSensitivity : ℚ := 1 / 10
  let stepped :=
    if 0 < deltaY then st.canvasScale - zoomSensitivity
    else if deltaY < 0 then st.canvasScale + zoomSensitivity
    else st.canvasScale
  { st with canvasScale := min (max stepped (1 / 10)) 10 }

/-- Observable operations of one animate tick, in the order the source
performs them.  A draw event records the placement being submitted together
with the spin angles in effect when its matrix is built. -/
inductive TickEv where
  | clear : TickEv
  | advanceAngles : TickEv
  | draw : CubePlacement → ℚ → ℚ → ℚ → TickEv
deriving DecidableEq, Repr

/-- Embedding of animate (script.js lines 432-446): the source clears the
canvas (lines 433-435), then advances the three spin angles (lines 437-440),
then calls drawCarpet (line 442), which submits one draw per emitted cube
using the already-advanced angles. -/
def animateTick (st : AppState) (iterations : ℕ) : AppState × List TickEv :=
  let st1 :=
    { st with
      xRotationAngle := st.xRotationAngle + st.xRotationSpeed / 200
      yRotationAngle := st.yRotationAngle + st.yRotationSpeed / 200
      zRotationAngle := st.zRotationAngle + st.zRotationSpeed / 200 }
  (st1,
    TickEv.clear :: TickEv.advanceAngles ::
      (drawCarpet (-1) (-1) st1.canvasSize iterations).map fun p =>
        TickEv.draw p st1.xRotationAngle st1.yRotationAngle st1.zRotationAngle)

/-- JavaScript Math.round on an exact rational: round half toward positive
infinity. -/
def jsRound (q : ℚ) : ℤ := ⌊q + 1 / 2⌋

/-- The rounding drawCube applies to vertex coordinates (script.js lines
361-368): Math.round(v * 10000) / 10000. -/
def roundTo4 (q : ℚ) : ℚ := (jsRound (q * 10000) : ℚ) / 10000

/-- Embedding of createCubeVertices (script.js lines 265-316): 36 vertices,
6 faces of 2 triangles, around center (x, y, z) with edge length size. -/
def createCubeVertices (x y z size : ℚ) : List ℚ :=
  let d := size / 2
  [ -- Front face
    x-d, y-d, z+d,  x+d, y-d, z+d,  x+d, y+d, z+d,
    x-d, y-d, z+d,  x+d, y+d, z+d,  x-d, y+d, z+d,
    -- Back face
    x-d, y-d, z-d,  x+d, y-d, z-d,  x+d, y+d, z-d,
    x-d, y-d, z-d,  x+d, y+d, z-d,  x-d, y+d, z-d,
    -- Top face
    x-d, y+d, z+d,  x+d, y+d, z+d,  x+d, y+d, z-d,
    x-d, y+d, z+d,  x+d, y+d, z-d,  x-d, y+d, z-d,
    -- Bottom face
    x-d, y-d, z+d,  x+d, y-d, z+d,  x+d, y-d, z-d,
    x-d, y-d, z+d,  x+d, y-d, z-d,  x-d, y-d, z-d,
    -- Right face
    x+d, y-d, z+d,  x+d, y-d, z-d,  x+d, y+d, z-d,
    x+d, y-d, z+d,  x+d, y+d, z-d,  x+d, y+d, z+d,
    -- Left face
    x-d, y-d, z+d,  x-d, y-d, z-d,  x-d, y+d, z-d,
    x-d, y-d, z+d,  x-d, y+d, z-d,  x-d, y+d, z+d ]

/-- The cube center drawCube derives from its vertex array (script.js lines
360-373): round the front-bottom-left vertex (indices 0-2) and the back-top
right vertex (indices 24-26) to 4 decimals, then take the midpoint. -/
def cubeCenterFromVertices (v : List ℚ) : ℚ × ℚ × ℚ :=
  let x1 := roundTo4 (v.getD 0 0)
  let y1 := roundTo4 (v.getD 1 0)
  let z1 := roundTo4 (v.getD 2 0)
  let x2 := roundTo4 (v.getD 24 0)
  let y2 := roundTo4 (v.getD 25 0)
  let z2 := roundTo4 (v.getD 26 0)
  ((x1 + x2) / 2, (y1 + y2) / 2, (z1 + z2) / 2)

/-- A rational is an integer multiple of 10^(-4). -/
def isTenThousandth (q : ℚ) : Prop := ∃ k : ℤ, q = (k : ℚ) / 10000

/-! Real-valued 4x4 matrix model of the gl-matrix calls used by drawCube and
handleMouseMove.  gl-matrix composes in column-vector convention: multiply
(out, a, b) computes a * b, and scale, translate, rotateX, rotateY, rotateZ
post-multiply their matrix argument by the corresponding elementary matrix. -/

abbrev Mat4 := Matrix (Fin 4) (Fin 4) ℝ

/-- Uniform scale of the three spatial axes (mat4.scale with [k, k, k]). -/
def scaleMat (k : ℝ) : Mat4 :=
  !![k, 0, 0, 0; 0, k, 0, 0; 0, 0, k, 0; 0, 0, 0, 1]

/-- Translation by (tx, ty, tz) (mat4.translate). -/
def translateMat (tx ty tz : ℝ) : Mat4 :=
  !![1, 0, 0, tx; 0, 1, 0, ty; 0, 0, 1, tz; 0, 0, 0, 1]

/-- Rotation about the X axis (mat4.rotateX, and mat4.rotate with axis
[1, 0, 0]). -/
noncomputable def rotXMat (t : ℝ) : Mat4 :=
  !![1, 0, 0, 0;
     0, Real.cos t, -Real.sin t, 0;
     0, Real.sin t, Real.cos t, 0;
     0, 0, 0, 1]

/-- Rotation about the Y axis (mat4.rotateY, and mat4.rotate with axis
[0, 1, 0]). -/
noncomputable def rotYMat (t : ℝ) : Mat4 :=
  !![Real.cos t, 0, Real.sin t, 0;
     0, 1, 0, 0;
     -Real.sin t, 0, Real.cos t, 0;
     0, 0, 0, 1]

/-- Rotation about the Z axis (mat4.rotateZ). -/
noncomputable def rotZMat (t : ℝ) : Mat4 :=
  !![Real.cos t, -Real.sin t, 0, 0;
     Real.sin t, Real.cos t, 0, 0;
     0, 0, 1, 0;
     0, 0, 0, 1]

/-- mat4.multiply(out, a, b): out = a * b. -/
def mat4multiply (a b : Mat4) : Mat4 := a * b

/-- mat4.scale(out, a, [k, k, k]): out = a * S(k). -/
def mat4scale (a : Mat4) (k : ℝ) : Mat4 := a * scaleMat k

/-- mat4.translate(out, a, [tx, ty, tz]): out = a * T(tx, ty, tz). -/
def mat4translate (a : Mat4) (tx ty tz : ℝ) : Mat4 := a * translateMat tx ty tz

/-- mat4.rotateX(out, a, t): out = a * RotX(t). -/
noncomputable def mat4rotateX (a : Mat4) (t : ℝ) : Mat4 := a * rotXMat t

/-- mat4.rotateY(out, a, t): out = a * RotY(t). -/
noncomputable def mat4rotateY (a : Mat4) (t : ℝ) : Mat4 := a * rotYMat t

/-- mat4.rotateZ(out, a, t): out = a * RotZ(t). -/
noncomputable def mat4rotateZ (a : Mat4) (t : ℝ) : Mat4 := a * rotZMat t

/-- Real-valued fields of the source state object that the drawCube matrix
pipeline and the mouse handlers use, together with the accumulated drag
rotation matrix. -/
structure SceneState where
  canvasScale : ℝ
  canvasRotationMatrix : Mat4
  xRotationAngle : ℝ
  yRotationAngle : ℝ
  zRotationAngle : ℝ
  mouseDown : Bool
  lastMouseX : ℝ
  lastMouseY : ℝ
  dragSensitivity : ℝ

/-- The model matrix drawCube rebuilds for one cube (script.js lines
375-393): identity, scale by canvasScale, left-multiply the accumulated drag
rotation, translate to the cube center, rotate X then Y then Z by the spin
angles, translate back. -/
noncomputable def drawCubeModelMatrix (st : SceneState) (cx cy cz : ℝ) : Mat4 :=
  let m : Mat4 := 1
  let m := mat4scale m st.canvasScale
  let m := mat4multiply st.canvasRotationMatrix m
  let m := mat4translate m cx cy cz
  let m := mat4rotateX m st.xRotationAngle
  let m := mat4rotateY m st.yRotationAngle
  let m := mat4rotateZ m st.zRotationAngle
  mat4translate m (-cx) (-cy) (-cz)

/-- The rotation increment one mouse-move builds (script.js lines 498-503):
identity rotated about Y by sens * deltaX, then about X by sens * deltaY. -/
noncomputable def dragIncrement (sens dx dy : ℝ) : Mat4 :=
  rotYMat (sens * dx) * rotXMat (sens * dy)

/-- Embedding of handleMouseMove (script.js lines 484-511): ignore the event
unless the mouse is down; otherwise build the Y-then-X rotation increment
from the pointer deltas and left-multiply it into canvasRotationMatrix,
updating the stored pointer position. -/
noncomputable def handleMouseMove (st : SceneState) (newX newY : ℝ) : SceneState :=
  if st.mouseDown then
    let deltaX := newX - st.lastMouseX
    let deltaY := newY - st.lastMouseY
    let newRotationMatrix :=
      mat4rotateX (mat4rotateY (1 : Mat4) (st.dragSensitivity * deltaX))
        (st.dragSensitivity * deltaY)
    { st with
      canvasRotationMatrix := mat4multiply newRotationMatrix st.canvasRotationMatrix
      lastMouseX := newX, lastMouseY := newY }
  else st

/-- mat4.invert followed by the fallback the source exhibits: when the matrix
is singular gl-matrix returns null and leaves the freshly created identity in
normalMatrix, so the uploaded value is the identity in that case. -/
noncomputable def glInvert (m : Mat4) : Mat4 :=
  open Classical in if m.det = 0 then 1 else m⁻¹

/-- Arguments of one drawCube call that affect the matrix uploads: the state
snapshot and the cube center in effect for that call. -/
structure DrawCall where
  scene : SceneState
  cx : ℝ
  cy : ℝ
  cz : ℝ

/-- A sequence of drawCube calls threading the global modelMatrix exactly as
the source does (script.js lines 353-358 then 375-396): each call first
uploads the inverse-transpose of whatever modelMatrix currently holds, and
only afterwards resets and rebuilds modelMatrix for the current cube.  Each
list entry is the pair (uploaded normal matrix, model matrix after the
call). -/
noncomputable def drawCubeRun : Mat4 → List DrawCall → List (Mat4 × Mat4)
  | _, [] => []
  | prev, c :: rest =>
    let normalMatrix := (glInvert prev).transpose
    let model := drawCubeModelMatrix c.scene c.cx c.cy c.cz
    (normalMatrix, model) :: drawCubeRun model rest

/-- A scene state with the mouse held down, used to instantiate the drag
composition theorem on concrete input. -/
noncomputable def testScene : SceneState :=
  { canvasScale := 1, canvasRotationMatrix := 1
    xRotationAngle := 0, yRotationAngle := 0, zRotationAngle := 0
    mouseDown := true, lastMouseX := 0, lastMouseY := 0
    dragSensitivity := 1 / 100 }

/-! Theorems. -/

/-- drawCarpet is the concatenation of its nine loop-cell contributions. -/
theorem drawCarpet_cells (x y s : ℚ) (n : ℕ) :
    drawCarpet x y s n =
      (List.range 3).flatMap fun i => (List.range 3).flatMap fun j =>
        cellBody x y s n i j := by
  match n with
  | 0 => rfl
  | 1 => rfl
  | k + 2 => rfl

/-- The number of emitted cubes depends only on the iteration count. -/
theorem drawCarpet_length (n : ℕ) :
    ∀ x y s : ℚ, (drawCarpet x y s n).length = carpetCount n := by
  induction n using Nat.strong_induction_on with
  | _ n IH =>
    intro x y s
    rw [drawCarpet_cells]
    match n with
    | 0 => rfl
    | 1 => rfl
    | k + 2 =>
      simp only [show List.range 3 = [0, 1, 2] from rfl, List.flatMap_cons,
        List.flatMap_nil, List.append_nil, List.length_append, cellBody,
        carpetCount]
      norm_num [IH (k + 1) (by omega)]
      ring

/-- For a positive iteration count, carpetCount is the geometric series
1 + 8 + ... + 8^(n-1). -/
theorem carpetCount_geom (n : ℕ) (hn : 1 ≤ n) :
    carpetCount n = ∑ k ∈ Finset.range n, 8 ^ k := by
  induction n, hn using Nat.le_induction with
  | base => rfl
  | succ m hm IH =>
    have hstep : carpetCount (m + 1) = 1 + 8 * carpetCount m := by
      match m, hm with
      | m + 1, _ => rfl
    rw [hstep, IH, geom_sum_succ]
    ring

/-- C1: for every iterations >= 1 and size > 0, drawCarpet emits exactly
sum of 8^k for k < iterations cube placements; in particular two iterations
yield exactly 9 placements. -/
theorem drawCarpet_count (x y s : ℚ) (n : ℕ) (hn : 1 ≤ n) (_hs : 0 < s) :
    (drawCarpet x y s n).length = ∑ k ∈ Finset.range n, 8 ^ k ∧
      (n = 2 → (drawCarpet x y s n).length = 9) := by
  refine ⟨by rw [drawCarpet_length, carpetCount_geom n hn], ?_⟩
  rintro rfl
  rw [drawCarpet_length]
  rfl

/-- C1 witness: at iterations = 2 and size = 2 the hypotheses hold and the
count is the two-term geometric series, that is 9. -/
theorem drawCarpet_count_witness :
    (1 ≤ 2 ∧ (0:ℚ) < 2) ∧
      (drawCarpet (-1) (-1) 2 2).length = ∑ k ∈ Finset.range 2, 8 ^ k ∧
      (drawCarpet (-1) (-1) 2 2).length = 9 :=
  ⟨⟨by norm_num, by norm_num⟩,
    (drawCarpet_count (-1) (-1) 2 2 (by norm_num) (by norm_num)).1,
    (drawCarpet_count (-1) (-1) 2 2 (by norm_num) (by norm_num)).2 rfl⟩

/-- C2: at the final recursion level only the center sub-cell produces a
cube, the eight other cells emit nothing, and concretely
drawCarpet (-1) (-1) 2 1 is the single placement centered at (0, 0, 1/3)
with size 2/3. -/
theorem drawCarpet_depth_one (x y s : ℚ) :
    drawCarpet x y s 1 =
      [{ centerX := x + s/3 + (s/3)/2, centerY := y + s/3 + (s/3)/2,
         centerZ := (s/3)/2, size := s/3 }] ∧
    drawCarpet (-1) (-1) 2 1 =
      [{ centerX := 0, centerY := 0, centerZ := 1/3, size := 2/3 }] := by
  constructor
  · show [CubePlacement.mk (x + ((1:ℕ) : ℚ) * (s/3) + (s/3)/2)
      (y + ((1:ℕ) : ℚ) * (s/3) + (s/3)/2) ((s/3)/2) (s/3)] = _
    norm_num
  · show [CubePlacement.mk (-1 + ((1:ℕ) : ℚ) * (2/3) + (2/3)/2)
      (-1 + ((1:ℕ) : ℚ) * (2/3) + (2/3)/2) ((2/3)/2) (2/3)] = _
    norm_num

/-- Every cube emitted over the square rooted at (x, y) with side s has its
center strictly inside that square. -/
theorem drawCarpet_bound (n : ℕ) :
    ∀ (x y s : ℚ), 0 < s → ∀ p ∈ drawCarpet x y s n,
      x < p.centerX ∧ p.centerX < x + s ∧ y < p.centerY ∧ p.centerY < y + s := by
  induction n using Nat.strong_induction_on with
  | _ n IH =>
    intro x y s hs p hp
    rw [drawCarpet_cells] at hp
    simp only [List.mem_flatMap, List.mem_range] at hp
    obtain ⟨i, hi, j, hj, hp⟩ := hp
    have hns : (0:ℚ) < s / 3 := by positivity
    have hi2 : ((i:ℚ)) ≤ 2 := by exact_mod_cast Nat.lt_succ_iff.mp hi
    have hj2 : ((j:ℚ)) ≤ 2 := by exact_mod_cast Nat.lt_succ_iff.mp hj
    have hi0 : (0:ℚ) ≤ (i:ℚ) := Nat.cast_nonneg i
    have hj0 : (0:ℚ) ≤ (j:ℚ) := Nat.cast_nonneg j
    have hins : (i:ℚ) * (s/3) ≤ 2 * (s/3) := mul_le_mul_of_nonneg_right hi2 hns.le
    have hjns : (j:ℚ) * (s/3) ≤ 2 * (s/3) := mul_le_mul_of_nonneg_right hj2 hns.le
    have hins0 : 0 ≤ (i:ℚ) * (s/3) := mul_nonneg hi0 hns.le
    have hjns0 : 0 ≤ (j:ℚ) * (s/3) := mul_nonneg hj0 hns.le
    unfold cellBody at hp
    by_cases hc : i = 1 ∧ j = 1
    · rw [if_pos hc] at hp
      simp only [List.mem_singleton] at hp
      subst hp
      refine ⟨?_, ?_, ?_, ?_⟩ <;> · simp only; linarith
    · rw [if_neg hc] at hp
      match n, IH, hp with
      | 0, _, hp => exact absurd hp (List.not_mem_nil p)
      | 1, _, hp => exact absurd hp (List.not_mem_nil p)
      | k + 2, IH, hp =>
        have hb := IH (k + 1) (by omega) (x + (i:ℚ) * (s/3)) (y + (j:ℚ) * (s/3))
          (s/3) hns p hp
        refine ⟨?_, ?_, ?_, ?_⟩ <;> linarith [hb.1, hb.2.1, hb.2.2.1, hb.2.2.2]

/-- Every cube emitted by the loop cell (i, j) has its center strictly
inside the open sub-square of that cell. -/
theorem cellBody_bound (x y s : ℚ) (n i j : ℕ) (hs : 0 < s) :
    ∀ p ∈ cellBody x y s n i j,
      x + (i:ℚ) * (s/3) < p.centerX ∧
      p.centerX < x + (i:ℚ) * (s/3) + s/3 ∧
      y + (j:ℚ) * (s/3) < p.centerY ∧
      p.centerY < y + (j:ℚ) * (s/3) + s/3 := by
  intro p hp
  have hns : (0:ℚ) < s / 3 := by positivity
  unfold cellBody at hp
  by_cases hc : i = 1 ∧ j = 1
  · rw [if_pos hc] at hp
    simp only [List.mem_singleton] at hp
    subst hp
    refine ⟨?_, ?_, ?_, ?_⟩ <;> · simp only; linarith
  · rw [if_neg hc] at hp
    match n, hp with
    | 0, hp => exact absurd hp (List.not_mem_nil p)
    | 1, hp => exact absurd hp (List.not_mem_nil p)
    | k + 2, hp =>
      exact drawCarpet_bound (k + 1) (x + (i:ℚ) * (s/3)) (y + (j:ℚ) * (s/3))
        (s/3) hns p hp

/-- Cubes emitted by two different loop cells have different centers: their
open sub-squares are disjoint along the axis where the cell indices
differ. -/
theorem cellBody_ne (x y s : ℚ) (n : ℕ) {i j i2 j2 : ℕ} (hs : 0 < s)
    (hij : i ≠ i2 ∨ j ≠ j2) :
    ∀ p ∈ cellBody x y s n i j, ∀ q ∈ cellBody x y s n i2 j2,
      (p.centerX, p.centerY, p.centerZ) ≠ (q.centerX, q.centerY, q.centerZ) := by
  intro p hp q hq heq
  have hbp := cellBody_bound x y s n i j hs p hp
  have hbq := cellBody_bound x y s n i2 j2 hs q hq
  have hns : (0:ℚ) < s / 3 := by positivity
  simp only [Prod.mk.injEq] at heq
  obtain ⟨hx, hy, -⟩ := heq
  have key : ∀ a b : ℕ, a < b → ∀ u cu cv : ℚ,
      u + (a:ℚ) * (s/3) < cu → cu < u + (a:ℚ) * (s/3) + s/3 →
      u + (b:ℚ) * (s/3) < cv → cu ≠ cv := by
    intro a b hab u cu cv h1 h2 h3
    have hcast : ((a:ℚ) + 1) ≤ (b:ℚ) := by exact_mod_cast Nat.succ_le_of_lt hab
    have hmul : ((a:ℚ) + 1) * (s/3) ≤ (b:ℚ) * (s/3) :=
      mul_le_mul_of_nonneg_right hcast hns.le
    have hexp : ((a:ℚ) + 1) * (s/3) = (a:ℚ) * (s/3) + s/3 := by ring
    intro hcc
    rw [hcc] at h2
    linarith
  rcases hij with hI | hJ
  · rcases Nat.lt_or_ge i i2 with h1 | h1
    · exact key i i2 h1 x p.centerX q.centerX hbp.1 hbp.2.1 hbq.1 hx
    · have h1 : i2 < i := lt_of_le_of_ne h1 (Ne.symm hI)
      exact key i2 i h1 x q.centerX p.centerX hbq.1 hbq.2.1 hbp.1 hx.symm
  · rcases Nat.lt_or_ge j j2 with h1 | h1
    · exact key j j2 h1 y p.centerY q.centerY hbp.2.2.1 hbp.2.2.2 hbq.2.2.1 hy
    · have h1 : j2 < j := lt_of_le_of_ne h1 (Ne.symm hJ)
      exact key j2 j h1 y q.centerY p.centerY hbq.2.2.1 hbq.2.2.2 hbp.2.2.1 hy.symm

/-- C8: for every iteration count and positive size, the centers of the
emitted cube placements are pairwise distinct. -/
theorem drawCarpet_centers_distinct (n : ℕ) :
    ∀ (x y s : ℚ), 0 < s →
      (drawCarpet x y s n).Pairwise
        (fun p q => (p.centerX, p.centerY, p.centerZ) ≠
          (q.centerX, q.centerY, q.centerZ)) := by
  induction n using Nat.strong_induction_on with
  | _ n IH =>
    intro x y s hs
    have hns : (0:ℚ) < s / 3 := by positivity
    have hcell : ∀ i j : ℕ,
        (cellBody x y s n i j).Pairwise
          (fun p q => (p.centerX, p.centerY, p.centerZ) ≠
            (q.centerX, q.centerY, q.centerZ)) := by
      intro i j
      unfold cellBody
      by_cases hc : i = 1 ∧ j = 1
      · rw [if_pos hc]
        exact List.pairwise_singleton _ _
      · rw [if_neg hc]
        match n, IH with
        | 0, _ => exact List.Pairwise.nil
        | 1, _ => exact List.Pairwise.nil
        | k + 2, IH =>
          exact IH (k + 1) (by omega) _ _ (s/3) hns
    rw [drawCarpet_cells, List.pairwise_flatMap]
    constructor
    · intro i _
      rw [List.pairwise_flatMap]
      refine ⟨fun j _ => hcell i j, ?_⟩
      rw [show List.range 3 = [0, 1, 2] from rfl]
      refine List.Pairwise.cons ?_ (List.Pairwise.cons ?_
        (List.pairwise_singleton _ _))
      · intro j2 hj2
        have h12 : j2 = 1 ∨ j2 = 2 := by simpa using hj2
        rcases h12 with rfl | rfl
        · exact cellBody_ne x y s n hs (Or.inr (by omega))
        · exact cellBody_ne x y s n hs (Or.inr (by omega))
      · intro j2 hj2
        have h2 : j2 = 2 := by simpa using hj2
        subst h2
        exact cellBody_ne x y s n hs (Or.inr (by omega))
    · have hrow : ∀ i i2 : ℕ, i ≠ i2 →
          ∀ p ∈ (List.range 3).flatMap (fun j => cellBody x y s n i j),
          ∀ q ∈ (List.range 3).flatMap (fun j => cellBody x y s n i2 j),
            (p.centerX, p.centerY, p.centerZ) ≠
              (q.centerX, q.centerY, q.centerZ) := by
        intro i i2 hI p hp q hq
        simp only [List.mem_flatMap, List.mem_range] at hp hq
        obtain ⟨j, -, hp⟩ := hp
        obtain ⟨j2, -, hq⟩ := hq
        exact cellBody_ne x y s n hs (Or.inl hI) p hp q hq
      rw [show List.range 3 = [0, 1, 2] from rfl]
      refine List.Pairwise.cons ?_ (List.Pairwise.cons ?_
        (List.pairwise_singleton _ _))
      · intro i2 hi2
        have h12 : i2 = 1 ∨ i2 = 2 := by simpa using hi2
        rcases h12 with rfl | rfl
        · exact hrow 0 1 (by omega)
        · exact hrow 0 2 (by omega)
      · intro i2 hi2
        have h2 : i2 = 2 := by simpa using hi2
        subst h2
        exact hrow 1 2 (by omega)

/-- C8 witness: the hypotheses hold at size 2 with two iterations, so the
nine emitted centers there are pairwise distinct. -/
theorem drawCarpet_centers_distinct_witness :
    (0:ℚ) < 2 ∧
      (drawCarpet (-1) (-1) 2 2).Pairwise
        (fun p q => (p.centerX, p.centerY, p.centerZ) ≠
          (q.centerX, q.centerY, q.centerZ)) :=
  ⟨by norm_num, drawCarpet_centers_distinct 2 (-1) (-1) 2 (by norm_num)⟩

/-- C4 amended: within one animate tick the frame buffer is cleared first,
then the spin angles are advanced, and then the cubes are generated and
submitted in emission order, their matrices built from the already-advanced
angles. -/
theorem animateTick_order (st : AppState) (n : ℕ) :
    animateTick st n =
      (advanceSpin st,
        TickEv.clear :: TickEv.advanceAngles ::
          (drawCarpet (-1) (-1) st.canvasSize n).map fun p =>
            TickEv.draw p (advanceSpin st).xRotationAngle
              (advanceSpin st).yRotationAngle (advanceSpin st).zRotationAngle) :=
  rfl

/-- C4 counterexample: the first observable operation of a tick is the frame
buffer clear, not the spin-angle advancement, refuting the claimed
advance-then-clear order. -/
theorem animateTick_clear_first :
    (animateTick initAppState 1).2.head? = some TickEv.clear ∧
      (animateTick initAppState 1).2.head? ≠ some TickEv.advanceAngles :=
  ⟨rfl, by decide⟩

/-- Iterating the spin advance preserves the speeds and adds
n * speed / 200 to each angle. -/
theorem advanceSpin_iterate (st : AppState) (n : ℕ) :
    (advanceSpin^[n] st).xRotationSpeed = st.xRotationSpeed ∧
    (advanceSpin^[n] st).yRotationSpeed = st.yRotationSpeed ∧
    (advanceSpin^[n] st).zRotationSpeed = st.zRotationSpeed ∧
    (advanceSpin^[n] st).xRotationAngle =
      st.xRotationAngle + n * (st.xRotationSpeed / 200) ∧
    (advanceSpin^[n] st).yRotationAngle =
      st.yRotationAngle + n * (st.yRotationSpeed / 200) ∧
    (advanceSpin^[n] st).zRotationAngle =
      st.zRotationAngle + n * (st.zRotationSpeed / 200) := by
  induction n with
  | zero => simp
  | succ m IH =>
    obtain ⟨h1, h2, h3, h4, h5, h6⟩ := IH
    rw [Function.iterate_succ_apply']
    refine ⟨?_, ?_, ?_, ?_, ?_, ?_⟩ <;>
      simp only [advanceSpin, h1, h2, h3, h4, h5, h6] <;>
      push_cast <;> ring

/-- C7: each tick adds exactly speed / 200 to each spin angle, so n ticks at
constant speed add exactly n * speed / 200, and a single tick at speed 200
adds exactly 1. -/
theorem animate_spin_exact (st : AppState) (n : ℕ) :
    ((advanceSpin^[n] st).xRotationAngle =
        st.xRotationAngle + n * (st.xRotationSpeed / 200) ∧
      (advanceSpin^[n] st).yRotationAngle =
        st.yRotationAngle + n * (st.yRotationSpeed / 200) ∧
      (advanceSpin^[n] st).zRotationAngle =
        st.zRotationAngle + n * (st.zRotationSpeed / 200)) ∧
    (advanceSpin { st with xRotationSpeed := 200 }).xRotationAngle =
      st.xRotationAngle + 1 := by
  obtain ⟨-, -, -, h4, h5, h6⟩ := advanceSpin_iterate st n
  refine ⟨⟨h4, h5, h6⟩, ?_⟩
  simp only [advanceSpin]
  norm_num

/-- Closed form of repeated zoom-out events from the initial state: the
scale decreases by 0.1 per event until it sticks at the lower clamp 0.1. -/
theorem wheelOut_iterate (k : ℕ) :
    ((fun st => onCanvasWheel st 1)^[k] initAppState).canvasScale =
      max (1 - (k : ℚ) / 10) (1 / 10) := by
  induction k with
  | zero =>
    show (1 : ℚ) = _
    rw [Nat.cast_zero]
    norm_num
  | succ m IH =>
    rw [Function.iterate_succ_apply']
    have hstep : ∀ X : AppState,
        (onCanvasWheel X 1).canvasScale =
          min (max (X.canvasScale - 1/10) (1/10)) 10 := by
      intro X
      norm_num [onCanvasWheel]
    rw [hstep, IH]
    have hm : (0:ℚ) ≤ (m:ℚ) := Nat.cast_nonneg m
    simp only [min_def, max_def]
    push_cast
    split_ifs <;> linarith

/-- Closed form of repeated zoom-in events from the initial state: the scale
increases by 0.1 per event until it sticks at the upper clamp 10. -/
theorem wheelIn_iterate (k : ℕ) :
    ((fun st => onCanvasWheel st (-1))^[k] initAppState).canvasScale =
      min (1 + (k : ℚ) / 10) 10 := by
  induction k with
  | zero =>
    show (1 : ℚ) = _
    rw [Nat.cast_zero]
    norm_num
  | succ m IH =>
    rw [Function.iterate_succ_apply']
    have hstep : ∀ X : AppState,
        (onCanvasWheel X (-1)).canvasScale =
          min (max (X.canvasScale + 1/10) (1/10)) 10 := by
      intro X
      norm_num [onCanvasWheel]
    rw [hstep, IH]
    have hm : (0:ℚ) ≤ (m:ℚ) := Nat.cast_nonneg m
    simp only [min_def, max_def]
    push_cast
    split_ifs <;> linarith

/-- C6: a negative-delta wheel event adds exactly 0.1 and a positive-delta
event subtracts exactly 0.1, the result being clamped into [0.1, 10] after
every update; 200 zoom-out events from 1.0 end at exactly 0.1 and 200
zoom-in events end at exactly 10.0. -/
theorem onCanvasWheel_spec (st : AppState) (d : ℚ) :
    (d < 0 → onCanvasWheel st d =
      { st with canvasScale := min (max (st.canvasScale + 1/10) (1/10)) 10 }) ∧
    (0 < d → onCanvasWheel st d =
      { st with canvasScale := min (max (st.canvasScale - 1/10) (1/10)) 10 }) ∧
    ((fun st2 => onCanvasWheel st2 1)^[200] initAppState).canvasScale = 1/10 ∧
    ((fun st2 => onCanvasWheel st2 (-1))^[200] initAppState).canvasScale = 10 := by
  refine ⟨?_, ?_, ?_, ?_⟩
  · intro hd
    simp only [onCanvasWheel]
    rw [if_neg (by linarith), if_pos hd]
  · intro hd
    simp only [onCanvasWheel]
    rw [if_pos hd]
  · rw [wheelOut_iterate]
    norm_num [max_def]
  · rw [wheelIn_iterate]
    norm_num [min_def]

/-- C6 witness: both signed wheel events applied to the initial state take
the specified stepped-and-clamped value. -/
theorem onCanvasWheel_spec_witness :
    ((-1 : ℚ) < 0 ∧ (0 : ℚ) < 1) ∧
    onCanvasWheel initAppState (-1) =
      { initAppState with
        canvasScale := min (max (initAppState.canvasScale + 1/10) (1/10)) 10 } ∧
    onCanvasWheel initAppState 1 =
      { initAppState with
        canvasScale := min (max (initAppState.canvasScale - 1/10) (1/10)) 10 } :=
  ⟨⟨by norm_num, by norm_num⟩,
    (onCanvasWheel_spec initAppState (-1)).1 (by norm_num),
    (onCanvasWheel_spec initAppState 1).2.1 (by norm_num)⟩

/-- The pivot center drawCube computes, evaluated on the vertex array of a
placement: the midpoint of the rounded front-bottom-left corner
(x - s/2, y - s/2, z + s/2) and the rounded back-top-right corner
(x + s/2, y + s/2, z - s/2). -/
theorem cubeCenter_eq (x y z s : ℚ) :
    cubeCenterFromVertices (createCubeVertices x y z s) =
      ((roundTo4 (x - s/2) + roundTo4 (x + s/2)) / 2,
       (roundTo4 (y - s/2) + roundTo4 (y + s/2)) / 2,
       (roundTo4 (z + s/2) + roundTo4 (z - s/2)) / 2) :=
  rfl

/-- Rounding to 4 decimals fixes every integer multiple of 10^(-4). -/
theorem roundTo4_fixed (q : ℚ) (h : isTenThousandth q) : roundTo4 q = q := by
  obtain ⟨k, rfl⟩ := h
  unfold roundTo4 jsRound
  rw [div_mul_cancel₀ _ (by norm_num : (10000:ℚ) ≠ 0), Int.floor_int_add]
  norm_num

/-- C10 amended: the spin pivot drawCube uses is the midpoint of the
front-bottom-left and back-top-right vertex coordinates rounded to 4
decimals, and it coincides with the exact placement center whenever every
corner coordinate is an integer multiple of 10^(-4) (a sufficient
condition). -/
theorem drawCube_pivot (x y z s : ℚ) :
    cubeCenterFromVertices (createCubeVertices x y z s) =
      ((roundTo4 (x - s/2) + roundTo4 (x + s/2)) / 2,
       (roundTo4 (y - s/2) + roundTo4 (y + s/2)) / 2,
       (roundTo4 (z + s/2) + roundTo4 (z - s/2)) / 2) ∧
    ((isTenThousandth (x - s/2) ∧ isTenThousandth (x + s/2) ∧
      isTenThousandth (y - s/2) ∧ isTenThousandth (y + s/2) ∧
      isTenThousandth (z + s/2) ∧ isTenThousandth (z - s/2)) →
      cubeCenterFromVertices (createCubeVertices x y z s) = (x, y, z)) := by
  refine ⟨cubeCenter_eq x y z s, ?_⟩
  rintro ⟨h1, h2, h3, h4, h5, h6⟩
  rw [cubeCenter_eq, roundTo4_fixed _ h1, roundTo4_fixed _ h2,
    roundTo4_fixed _ h3, roundTo4_fixed _ h4, roundTo4_fixed _ h5,
    roundTo4_fixed _ h6]
  simp only [Prod.mk.injEq]
  refine ⟨by ring, by ring, by ring⟩

/-- C10 counterexample: for the cube centered at (1/2, 1/2, 1/2) with size
1/3 the rounding errors of the two corners cancel, so the pivot equals the
exact center even though the corner coordinates 1/3 and 2/3 are not
multiples of 10^(-4); the claimed equivalence is false at this input. -/
theorem drawCube_pivot_cex :
    ¬ ((cubeCenterFromVertices (createCubeVertices (1/2) (1/2) (1/2) (1/3)) =
          ((1:ℚ)/2, (1:ℚ)/2, (1:ℚ)/2)) ↔
        (isTenThousandth ((1:ℚ)/2 - (1/3)/2) ∧
         isTenThousandth ((1:ℚ)/2 + (1/3)/2) ∧
         isTenThousandth ((1:ℚ)/2 - (1/3)/2) ∧
         isTenThousandth ((1:ℚ)/2 + (1/3)/2) ∧
         isTenThousandth ((1:ℚ)/2 + (1/3)/2) ∧
         isTenThousandth ((1:ℚ)/2 - (1/3)/2))) := by
  intro h
  have hL : cubeCenterFromVertices (createCubeVertices (1/2) (1/2) (1/2) (1/3)) =
      ((1:ℚ)/2, (1:ℚ)/2, (1:ℚ)/2) := by
    rw [cubeCenter_eq]
    norm_num [roundTo4, jsRound, Prod.mk.injEq]
  have hN : ¬ isTenThousandth ((1:ℚ)/2 - (1/3)/2) := by
    rintro ⟨k, hk⟩
    have h3 : (3:ℚ) * (k:ℚ) = 10000 := by
      field_simp at hk
      linarith
    have h4 : (3 * k : ℤ) = 10000 := by exact_mod_cast h3
    omega
  exact hN (h.mp hL).1

/-- C10 witness: for the cube centered at the origin with size 1/2 every
corner coordinate is a multiple of 10^(-4), and the pivot equals the exact
center. -/
theorem drawCube_pivot_witness :
    isTenThousandth ((0:ℚ) - (1/2)/2) ∧ isTenThousandth ((0:ℚ) + (1/2)/2) ∧
    cubeCenterFromVertices (createCubeVertices 0 0 0 (1/2)) = (0, 0, 0) :=
  ⟨⟨-2500, by norm_num⟩, ⟨2500, by norm_num⟩,
    (drawCube_pivot 0 0 0 (1/2)).2
      ⟨⟨-2500, by norm_num⟩, ⟨2500, by norm_num⟩, ⟨-2500, by norm_num⟩,
       ⟨2500, by norm_num⟩, ⟨2500, by norm_num⟩, ⟨-2500, by norm_num⟩⟩⟩

/-- C3: the model matrix drawCube builds equals the product
dragRotation * Scale * Translate(c) * RotX * RotY * RotZ * Translate(-c),
in exactly this association. -/
theorem drawCube_matrix_composition (st : SceneState) (cx cy cz : ℝ) :
    drawCubeModelMatrix st cx cy cz =
      st.canvasRotationMatrix * scaleMat st.canvasScale *
        translateMat cx cy cz * rotXMat st.xRotationAngle *
        rotYMat st.yRotationAngle * rotZMat st.zRotationAngle *
        translateMat (-cx) (-cy) (-cz) := by
  simp only [drawCubeModelMatrix, mat4scale, mat4multiply, mat4translate,
    mat4rotateX, mat4rotateY, mat4rotateZ, Matrix.one_mul]

/-- C5: while dragging, each pointer move left-multiplies the Y-then-X
rotation increment of its deltas into the accumulated drag rotation, and two
successive moves accumulate exactly the left-multiplied product of their two
increments. -/
theorem handleMouseMove_drag (st : SceneState) (dx1 dy1 dx2 dy2 : ℝ)
    (hdown : st.mouseDown = true) :
    ((handleMouseMove st (st.lastMouseX + dx1)
        (st.lastMouseY + dy1)).canvasRotationMatrix =
      dragIncrement st.dragSensitivity dx1 dy1 * st.canvasRotationMatrix) ∧
    ((handleMouseMove
        (handleMouseMove st (st.lastMouseX + dx1) (st.lastMouseY + dy1))
        (st.lastMouseX + dx1 + dx2)
        (st.lastMouseY + dy1 + dy2)).canvasRotationMatrix =
      dragIncrement st.dragSensitivity dx2 dy2 *
        dragIncrement st.dragSensitivity dx1 dy1 *
        st.canvasRotationMatrix) := by
  constructor
  · simp [handleMouseMove, hdown, dragIncrement, mat4rotateX, mat4rotateY,
      mat4multiply, add_sub_cancel_left]
  · simp [handleMouseMove, hdown, dragIncrement, mat4rotateX, mat4rotateY,
      mat4multiply, add_sub_cancel_left, mul_assoc]

/-- C5 witness: two concrete moves from the held-down test state accumulate
the combined left-multiplied product of their increments. -/
theorem handleMouseMove_drag_witness :
    testScene.mouseDown = true ∧
    ((handleMouseMove
        (handleMouseMove testScene (testScene.lastMouseX + 3)
          (testScene.lastMouseY + 4))
        (testScene.lastMouseX + 3 + 5)
        (testScene.lastMouseY + 4 + 6)).canvasRotationMatrix =
      dragIncrement testScene.dragSensitivity 5 6 *
        dragIncrement testScene.dragSensitivity 3 4 *
        testScene.canvasRotationMatrix) :=
  ⟨rfl, (handleMouseMove_drag testScene 3 4 5 6 rfl).2⟩

/-- C9: in a run of drawCube calls, the normal matrix uploaded by each call
is the inverse-transpose of the model matrix left over from the previous
call (the threaded value, starting from the initial matrix), while the model
matrix is rebuilt for the current cube only afterwards. -/
theorem drawCube_normal_matrix_stale (prev : Mat4) (calls : List DrawCall) :
    (drawCubeRun prev calls).map Prod.fst =
      (((prev :: (drawCubeRun prev calls).map Prod.snd).take calls.length).map
        fun m => (glInvert m).transpose) ∧
    (drawCubeRun prev calls).map Prod.snd =
      calls.map fun c => drawCubeModelMatrix c.scene c.cx c.cy c.cz := by
  induction calls generalizing prev with
  | nil => exact ⟨rfl, rfl⟩
  | cons c rest IH =>
    obtain ⟨IH1, IH2⟩ := IH (drawCubeModelMatrix c.scene c.cx c.cy c.cz)
    constructor
    · simp only [drawCubeRun, List.map_cons, List.length_cons,
        List.take_succ_cons]
      exact congrArg (List.cons ((glInvert prev).transpose)) IH1
    · simp only [drawCubeRun, List.map_cons]
      exact congrArg (List.cons (drawCubeModelMatrix c.scene c.cx c.cy c.cz))
        IH2
